import Mathlib

namespace Jsons

/-- Configuration bundle threaded through serialization, modelling the keyword
arguments that `dump_impl` forwards to every serializer: the `strip_nulls`
flag, the optional `key_transformer`, the `use_enum_name` flag and the open
bag of remaining keyword arguments (`extra`). -/
structure Config where
  strip_nulls : Bool
  key_transformer : Option (String → String)
  use_enum_name : Bool
  extra : List (String × String)

/-- Python `datetime` value as consumed by `default_datetime_serializer`:
calendar fields, the microsecond component, and `tzinfo` modelled by the
string its `tzname` method returns (`none` for a naive datetime). -/
structure DateTime where
  year : Nat
  month : Nat
  day : Nat
  hour : Nat
  minute : Nat
  second : Nat
  microsecond : Nat
  tzinfo : Option String
deriving DecidableEq

/-- Python values reaching the dispatcher, one constructor per structural
category of the resolution order: null, booleans, numbers, strings
(primitives), lists (sequences), dicts with string keys in insertion order
(mappings), enum members carrying their symbolic name and underlying value,
datetimes, and generic objects carrying their field dictionary. -/
inductive Value where
  | null : Value
  | bool : Bool → Value
  | num : Int → Value
  | str : String → Value
  | list : List Value → Value
  | dict : List (String × Value) → Value
  | enum : String → Value → Value
  | dt : DateTime → Value
  | obj : List (String × Value) → Value

/-- Python truth test `dumped_elem is None` on serialized values. -/
def isNull : Value → Bool
  | .null => true
  | _ => false

/-- Python dict assignment `result[key] = v` on an insertion-ordered
association list: an existing key keeps its position and gets the new value,
a fresh key is appended at the end. -/
def dictSet : List (String × Value) → String → Value → List (String × Value)
  | [], k, v => [(k, v)]
  | (k', v') :: rest, k, v =>
    if k' = k then (k, v) :: rest else (k', v') :: dictSet rest k v

/-- Python dict lookup on an insertion-ordered association list. -/
def dictGet : List (String × Value) → String → Option Value
  | [], _ => none
  | (k', v') :: rest, k => if k' = k then some v' else dictGet rest k

/-- Key transformation step of `default_dict_serializer`, the inline
`if key_transformer: key = key_transformer(key)` of the source. -/
def applyKT (cfg : Config) (k : String) : String :=
  match cfg.key_transformer with
  | some f => f k
  | none => k

/-- Serialize a primitive: simply return the given obj. -/
def default_primitive_serializer (v : Value) (_ : Config) : Value := v

/-- Serialize an enum member: return `obj.name` when `use_enum_name` is set,
otherwise return `obj.value` as stored, without conversion. -/
def default_enum_serializer (name : String) (value : Value)
    (use_enum_name : Bool) : Value :=
  if use_enum_name then .str name else value

/-- Zero-pad the decimal representation of `n` to `width` digits, as the
`strftime` directives `%Y %m %d %H %M %S %f` do. -/
def padNum (width n : Nat) : String :=
  String.mk (List.replicate (width - (toString n).length) '0') ++ toString n

/-- Render of the RFC3339 base pattern: the `strftime` result for the
format string of `RFC3339_DATETIME_PATTERN` verbatim from the spec's
contract `YYYY-MM-DDTHH:MM:SS`. -/
def formatBase (d : DateTime) : String :=
  padNum 4 d.year ++ "-" ++ padNum 2 d.month ++ "-" ++ padNum 2 d.day ++
    "T" ++ padNum 2 d.hour ++ ":" ++ padNum 2 d.minute ++ ":" ++
    padNum 2 d.second

/-- Python `str.split` specialized to the separator UTC that the source
splits on: scan left to right, cutting at each non-overlapping occurrence
of the three characters U, T, C. -/
def splitOnUTC : List Char → List (List Char)
  | 'U' :: 'T' :: 'C' :: rest => [] :: splitOnUTC rest
  | c :: rest =>
    match splitOnUTC rest with
    | [] => [[c]]
    | piece :: pieces => (c :: piece) :: pieces
  | [] => [[]]

/-- Offset suffix computation of the datetime serializer: the offset starts
as the letter Z; when a timezone is present and its name differs from UTC,
the offset becomes the piece of the name after splitting it on UTC
(index 1, an out-of-range index modelling the Python IndexError as
`none`). -/
def tzOffset : Option String → Option String
  | none => some "Z"
  | some tzname =>
    if tzname = "UTC" then some "Z"
    else
      match (splitOnUTC tzname.data).get? 1 with
      | none => none
      | some off => some (String.mk off)

/-- Serialize the given datetime instance to a string using the RFC3339
pattern, appending the fractional-seconds directive only when the
microsecond component is non-zero and appending the offset computed by
`tzOffset` after the pattern. -/
def default_datetime_serializer (obj : DateTime) : Option String :=
  match tzOffset obj.tzinfo with
  | none => none
  | some offset =>
    let pattern :=
      if obj.microsecond ≠ 0 then
        formatBase obj ++ "." ++ padNum 6 obj.microsecond
      else
        formatBase obj
    some (pattern ++ offset)

mutual

/-- Modelled from the spec: `dump_impl` is the dispatcher imported by the
serializer module but not defined in it.  It resolves the value's structural
category (Primitive, Enumeration, DateTime, Sequence, Mapping, generic
object fallback) and invokes the corresponding default serializer, passing
the whole configuration through unchanged.  A Python exception raised below
(the datetime serializer can fail on an exotic timezone name) is modelled by
`none`. -/
def dump_impl : Value → Config → Option Value
  | .null, cfg => some (default_primitive_serializer .null cfg)
  | .bool b, cfg => some (default_primitive_serializer (.bool b) cfg)
  | .num n, cfg => some (default_primitive_serializer (.num n) cfg)
  | .str s, cfg => some (default_primitive_serializer (.str s) cfg)
  | .enum n v, cfg => some (default_enum_serializer n v cfg.use_enum_name)
  | .dt d, _ => (default_datetime_serializer d).map .str
  | .list xs, cfg => (default_iterable_serializer xs cfg).map .list
  | .dict es, cfg => (default_dict_serializer es cfg).map .dict
  | .obj fs, cfg => (default_object_serializer fs cfg).map .dict
termination_by v _ => 4 * sizeOf v

/-- Serialize the given obj to a list of serialized objects: the list
comprehension building `[dump_impl(elem, **kwargs) for elem in obj]`, with a
failure of any element propagating. -/
def default_iterable_serializer : List Value → Config → Option (List Value)
  | [], _ => some []
  | e :: rest, cfg =>
    match dump_impl e cfg with
    | none => none
    | some de => (default_iterable_serializer rest cfg).map (de :: ·)
termination_by xs _ => 4 * sizeOf xs + 3

/-- Loop of `default_dict_serializer`: iterate over the remaining entries in
insertion order, carrying the partially built `result` dict.  Each entry's
value is serialized first; if `strip_nulls` is set and the serialized value
is null the entry is dropped, otherwise the key is transformed (when a
transformer is set) and written into `result`. -/
def dict_loop (cfg : Config) : List (String × Value) → List (String × Value) →
    Option (List (String × Value))
  | [], result => some result
  | (key, val) :: rest, result =>
    match dump_impl val cfg with
    | none => none
    | some dumped_elem =>
      if cfg.strip_nulls && isNull dumped_elem then
        dict_loop cfg rest result
      else
        dict_loop cfg rest (dictSet result (applyKT cfg key) dumped_elem)
termination_by pending _ => 4 * sizeOf pending + 1

/-- Serialize the given obj to a dict of serialized objects, starting from
the empty `result` dict of the source. -/
def default_dict_serializer (obj : List (String × Value)) (cfg : Config) :
    Option (List (String × Value)) :=
  dict_loop cfg obj []
termination_by 4 * sizeOf obj + 2

/-- Serialize the given obj to a dict: delegate the object's field
dictionary to `default_dict_serializer` with the same configuration. -/
def default_object_serializer (fields : List (String × Value)) (cfg : Config) :
    Option (List (String × Value)) :=
  default_dict_serializer fields cfg
termination_by 4 * sizeOf fields + 3

end

/-- Specification-side view of the value pass of `default_dict_serializer`:
serialize every entry's value in insertion order with the unchanged
configuration, keeping the original keys, and propagate any failure. -/
def dumpEntries : List (String × Value) → Config → Option (List (String × Value))
  | [], _ => some []
  | (k, v) :: rest, cfg =>
    match dump_impl v cfg with
    | none => none
    | some dv => (dumpEntries rest cfg).map (fun l => (k, dv) :: l)

/-- Specification-side view of the per-entry policy of
`default_dict_serializer` on already serialized entries: drop an entry when
`strip_nulls` is set and its value is null, otherwise transform its key. -/
def stripTransform (cfg : Config) : List (String × Value) → List (String × Value)
  | [] => []
  | (k, dv) :: rest =>
    if cfg.strip_nulls && isNull dv then stripTransform cfg rest
    else (applyKT cfg k, dv) :: stripTransform cfg rest

/-- Build a Python dict from an entry list by repeated dict assignment
starting from the empty dict. -/
def buildDict (l : List (String × Value)) : List (String × Value) :=
  l.foldl (fun r kv => dictSet r kv.1 kv.2) []

mutual

/-- Check that no mapping entry anywhere inside a value has a null value:
the output-side reading of the null-elision contract. -/
def noNullValues : Value → Bool
  | .null => true
  | .bool _ => true
  | .num _ => true
  | .str _ => true
  | .dt _ => true
  | .enum _ v => noNullValues v
  | .list xs => noNullList xs
  | .dict es => noNullEntries es
  | .obj fs => noNullEntries fs
termination_by v => sizeOf v

/-- Check `noNullValues` on every element of a list. -/
def noNullList : List Value → Bool
  | [] => true
  | v :: rest => noNullValues v && noNullList rest
termination_by xs => sizeOf xs

/-- Check that every entry of a mapping has a non-null value that itself
satisfies `noNullValues`. -/
def noNullEntries : List (String × Value) → Bool
  | [] => true
  | (_, v) :: rest => !(isNull v) && noNullValues v && noNullEntries rest
termination_by es => sizeOf es

end

mutual

/-- Check that every enumeration member inside a value carries an underlying
value free of null mapping entries.  Such underlying values are the only
data the dispatcher can emit without serializing it (the enum serializer
returns them raw when `use_enum_name` is unset). -/
def enumsNullFree : Value → Bool
  | .null => true
  | .bool _ => true
  | .num _ => true
  | .str _ => true
  | .dt _ => true
  | .enum _ v => noNullValues v
  | .list xs => enumsNullFreeList xs
  | .dict es => enumsNullFreeEntries es
  | .obj fs => enumsNullFreeEntries fs
termination_by v => sizeOf v

/-- Check `enumsNullFree` on every element of a list. -/
def enumsNullFreeList : List Value → Bool
  | [] => true
  | v :: rest => enumsNullFree v && enumsNullFreeList rest
termination_by xs => sizeOf xs

/-- Check `enumsNullFree` on every entry value of a mapping. -/
def enumsNullFreeEntries : List (String × Value) → Bool
  | [] => true
  | (_, v) :: rest => enumsNullFree v && enumsNullFreeEntries rest
termination_by es => sizeOf es

end

/-- Characters that may appear in a well-formed signed offset string such
as +02:30: a sign, a colon or a decimal digit. -/
def offsetGoodChar (c : Char) : Bool :=
  c = '+' || c = '-' || c = ':' || c.isDigit

/-- Well-formedness of the part of a timezone name after UTC: non-empty and
made only of sign, colon and digit characters (as the names produced by
fixed-offset timezones, for example +02:30, are). -/
def offsetWF (off : String) : Bool :=
  !off.data.isEmpty && off.data.all offsetGoodChar

/-- Boolean test for the string `s` ending with the string `t`. -/
def endsWithStr (s t : String) : Bool :=
  t.data.isSuffixOf s.data

/-- Boolean test for the datetime carrying the UTC timezone. -/
def tzIsUTC (d : DateTime) : Bool :=
  d.tzinfo == some "UTC"

/-- Constant key transformer used as a colliding transformer in witnesses. -/
def constKeyX (_ : String) : String := "x"

/-- Boolean test for a value being a string. -/
def isStr : Value → Bool
  | .str _ => true
  | _ => false

/-- Modelled from the spec: serialize a generic object by treating its field
set as a mapping from field names to field values and dispatching that
mapping with the same configuration. -/
def serializeFieldsAsMapping (fields : List (String × Value)) (cfg : Config) :
    Option Value :=
  dump_impl (.dict fields) cfg

lemma dict_loop_nil (cfg : Config) (acc : List (String × Value)) :
    dict_loop cfg [] acc = some acc := by
  simp [dict_loop]

lemma dict_loop_cons (cfg : Config) (key : String) (val : Value)
    (rest acc : List (String × Value)) :
    dict_loop cfg ((key, val) :: rest) acc =
      match dump_impl val cfg with
      | none => none
      | some dumped =>
        if cfg.strip_nulls && isNull dumped then dict_loop cfg rest acc
        else dict_loop cfg rest (dictSet acc (applyKT cfg key) dumped) := by
  simp [dict_loop]

lemma dict_loop_eq (cfg : Config) (pending : List (String × Value)) :
    ∀ acc, dict_loop cfg pending acc =
      (dumpEntries pending cfg).map
        (fun l => (stripTransform cfg l).foldl (fun r kv => dictSet r kv.1 kv.2) acc) := by
  induction pending with
  | nil => intro acc; simp [dict_loop_nil, dumpEntries, stripTransform]
  | cons kv rest ih =>
    intro acc
    obtain ⟨key, val⟩ := kv
    rw [dict_loop_cons]
    cases hd : dump_impl val cfg with
    | none => simp [dumpEntries, hd]
    | some dumped =>
      cases hrest : dumpEntries rest cfg with
      | none =>
        have h1 := ih acc
        have h2 := ih (dictSet acc (applyKT cfg key) dumped)
        rw [hrest] at h1 h2
        simp only [Option.map_none'] at h1 h2
        simp [dumpEntries, hd, hrest, h1, h2]
      | some l =>
        cases hstrip : (cfg.strip_nulls && isNull dumped) with
        | true =>
          have h1 := ih acc
          rw [hrest] at h1
          simp [dumpEntries, hd, hrest, hstrip, h1, stripTransform]
        | false =>
          have h2 := ih (dictSet acc (applyKT cfg key) dumped)
          rw [hrest] at h2
          simp [dumpEntries, hd, hrest, hstrip, h2, stripTransform]

lemma dds_eq (obj : List (String × Value)) (cfg : Config) :
    default_dict_serializer obj cfg =
      (dumpEntries obj cfg).map (fun l => buildDict (stripTransform cfg l)) := by
  rw [show default_dict_serializer obj cfg = dict_loop cfg obj [] from by
    simp [default_dict_serializer]]
  rw [dict_loop_eq]
  rfl

lemma dos_eq (fields : List (String × Value)) (cfg : Config) :
    default_object_serializer fields cfg = default_dict_serializer fields cfg := by
  simp [default_object_serializer]

lemma iterable_nil (cfg : Config) : default_iterable_serializer [] cfg = some [] := by
  simp [default_iterable_serializer]

lemma iterable_cons (e : Value) (rest : List Value) (cfg : Config) :
    default_iterable_serializer (e :: rest) cfg =
      match dump_impl e cfg with
      | none => none
      | some de => (default_iterable_serializer rest cfg).map (de :: ·) := by
  simp [default_iterable_serializer]

lemma iterable_eq_mapM (xs : List Value) (cfg : Config) :
    default_iterable_serializer xs cfg = xs.mapM (fun e => dump_impl e cfg) := by
  rw [← List.mapM'_eq_mapM]
  induction xs with
  | nil => simp [iterable_nil, List.mapM']
  | cons e rest ih =>
    rw [iterable_cons]
    cases hd : dump_impl e cfg with
    | none => simp [List.mapM', hd]
    | some de =>
      simp only [List.mapM', hd, ih]
      cases h2 : List.mapM' (fun e => dump_impl e cfg) rest <;>
        simp [h2, Option.bind]

/-- Elements of a successfully serialized list are exactly the element-wise
serializations, in order. -/
lemma iterable_forall2 (cfg : Config) :
    ∀ (xs rs : List Value), default_iterable_serializer xs cfg = some rs →
      List.Forall₂ (fun e de => dump_impl e cfg = some de) xs rs := by
  intro xs
  induction xs with
  | nil => intro rs h; rw [iterable_nil] at h; cases h; exact List.Forall₂.nil
  | cons e rest ih =>
    intro rs h
    rw [iterable_cons] at h
    cases hd : dump_impl e cfg with
    | none => rw [hd] at h; cases h
    | some de =>
      rw [hd] at h
      rcases Option.map_eq_some'.mp h with ⟨rs', hrs', rfl⟩
      exact List.Forall₂.cons hd (ih rs' hrs')

lemma dumpEntries_mem (cfg : Config) :
    ∀ (es l : List (String × Value)), dumpEntries es cfg = some l →
      ∀ kdv ∈ l, ∃ kv ∈ es, kdv.1 = kv.1 ∧ dump_impl kv.2 cfg = some kdv.2 := by
  intro es
  induction es with
  | nil => intro l h; simp [dumpEntries] at h; subst h; simp
  | cons kv rest ih =>
    intro l h
    obtain ⟨k, v⟩ := kv
    simp only [dumpEntries] at h
    cases hd : dump_impl v cfg with
    | none => rw [hd] at h; cases h
    | some dv =>
      rw [hd] at h
      rcases Option.map_eq_some'.mp h with ⟨l', hl', rfl⟩
      intro kdv hkdv
      rcases List.mem_cons.mp hkdv with heq | hmem
      · exact ⟨(k, v), List.mem_cons_self _ _, by simp [heq], by simp [heq, hd]⟩
      · rcases ih l' hl' kdv hmem with ⟨kv', hkv', h1, h2⟩
        exact ⟨kv', List.mem_cons_of_mem _ hkv', h1, h2⟩

lemma stripTransform_mem (cfg : Config) :
    ∀ (l : List (String × Value)), ∀ kv ∈ stripTransform cfg l,
      ∃ kdv ∈ l, kv = (applyKT cfg kdv.1, kdv.2) ∧
        (cfg.strip_nulls && isNull kdv.2) = false := by
  intro l
  induction l with
  | nil => intro kv h; simp [stripTransform] at h
  | cons kdv rest ih =>
    intro kv h
    obtain ⟨k, dv⟩ := kdv
    simp only [stripTransform] at h
    cases hstrip : (cfg.strip_nulls && isNull dv) with
    | true =>
      rw [hstrip] at h
      simp only [if_pos rfl] at h
      rcases ih kv h with ⟨kdv', hkdv', h1, h2⟩
      exact ⟨kdv', List.mem_cons_of_mem _ hkdv', h1, h2⟩
    | false =>
      rw [hstrip] at h
      simp only [Bool.false_eq_true, if_false] at h
      rcases List.mem_cons.mp h with heq | hmem
      · exact ⟨(k, dv), List.mem_cons_self _ _, heq, hstrip⟩
      · rcases ih kv hmem with ⟨kdv', hkdv', h1, h2⟩
        exact ⟨kdv', List.mem_cons_of_mem _ hkdv', h1, h2⟩

lemma stripTransform_kt (cfg : Config) (f : String → String)
    (hkt : cfg.key_transformer = some f) :
    ∀ l : List (String × Value), stripTransform cfg l =
      (l.filter (fun kdv => !(cfg.strip_nulls && isNull kdv.2))).map
        (fun kdv => (f kdv.1, kdv.2)) := by
  intro l
  induction l with
  | nil => simp [stripTransform]
  | cons kdv rest ih =>
    obtain ⟨k, dv⟩ := kdv
    cases hstrip : (cfg.strip_nulls && isNull dv) with
    | true => simp [stripTransform, hstrip, List.filter, ih]
    | false => simp [stripTransform, hstrip, List.filter, ih, applyKT, hkt]

lemma dictGet_dictSet (r : List (String × Value)) (k : String) (v : Value)
    (t : String) :
    dictGet (dictSet r k v) t = if k = t then some v else dictGet r t := by
  induction r with
  | nil => simp [dictSet, dictGet]
  | cons kv rest ih =>
    obtain ⟨k', v'⟩ := kv
    by_cases hk : k' = k
    · subst hk
      by_cases ht : k' = t <;> simp [dictSet, dictGet, ht]
    · by_cases ht : k' = t
      · have hkt : k ≠ t := fun h => hk (by rw [h, ht])
        have htk : t ≠ k := fun h => hkt h.symm
        simp [dictSet, dictGet, hk, ht, hkt, htk]
      · simp [dictSet, dictGet, hk, ht, ih]

lemma find?_append {α : Type} (l₁ l₂ : List α) (p : α → Bool) :
    (l₁ ++ l₂).find? p =
      match l₁.find? p with
      | some x => some x
      | none => l₂.find? p := by
  induction l₁ with
  | nil => simp
  | cons a rest ih =>
    cases hp : p a with
    | true => simp [List.find?, hp]
    | false => simp [List.find?, hp, ih]

lemma foldl_dictSet_lookup (l : List (String × Value)) :
    ∀ (acc : List (String × Value)) (t : String),
      dictGet (l.foldl (fun r kv => dictSet r kv.1 kv.2) acc) t =
        match l.reverse.find? (fun kv => kv.1 == t) with
        | some kv => some kv.2
        | none => dictGet acc t := by
  induction l with
  | nil => intro acc t; simp
  | cons kv rest ih =>
    intro acc t
    simp only [List.foldl_cons, List.reverse_cons]
    rw [ih, find?_append]
    cases hfind : rest.reverse.find? (fun kv => kv.1 == t) with
    | some kv' => simp
    | none =>
      simp only [List.find?]
      cases hbeq : (kv.1 == t) with
      | true =>
        have : kv.1 = t := by simpa using hbeq
        simp [dictGet_dictSet, this]
      | false =>
        have : kv.1 ≠ t := by simpa using hbeq
        simp [dictGet_dictSet, this]

lemma dictSet_length_le (r : List (String × Value)) (k : String) (v : Value) :
    (dictSet r k v).length ≤ r.length + 1 := by
  induction r with
  | nil => simp [dictSet]
  | cons kv rest ih =>
    obtain ⟨k', v'⟩ := kv
    by_cases hk : k' = k
    · simp [dictSet, hk]
    · simp only [dictSet, if_neg hk, List.length_cons]
      omega

lemma foldl_dictSet_length (l : List (String × Value)) :
    ∀ acc : List (String × Value),
      (l.foldl (fun r kv => dictSet r kv.1 kv.2) acc).length ≤
        acc.length + l.length := by
  induction l with
  | nil => intro acc; simp
  | cons kv rest ih =>
    intro acc
    simp only [List.foldl_cons, List.length_cons]
    calc (rest.foldl (fun r kv => dictSet r kv.1 kv.2)
            (dictSet acc kv.1 kv.2)).length
        ≤ (dictSet acc kv.1 kv.2).length + rest.length := ih _
      _ ≤ acc.length + 1 + rest.length := by
          have := dictSet_length_le acc kv.1 kv.2; omega
      _ = acc.length + (rest.length + 1) := by omega

lemma enumsNullFreeList_mem {xs : List Value} (h : enumsNullFreeList xs = true) :
    ∀ e ∈ xs, enumsNullFree e = true := by
  induction xs with
  | nil => simp
  | cons v rest ih =>
    simp only [enumsNullFreeList, Bool.and_eq_true] at h
    intro e he
    rcases List.mem_cons.mp he with rfl | hmem
    · exact h.1
    · exact ih h.2 e hmem

lemma enumsNullFreeEntries_mem {es : List (String × Value)}
    (h : enumsNullFreeEntries es = true) :
    ∀ kv ∈ es, enumsNullFree kv.2 = true := by
  induction es with
  | nil => simp
  | cons kv rest ih =>
    obtain ⟨k, v⟩ := kv
    simp only [enumsNullFreeEntries, Bool.and_eq_true] at h
    intro kv' hkv'
    rcases List.mem_cons.mp hkv' with rfl | hmem
    · exact h.1
    · exact ih h.2 kv' hmem

lemma noNullEntries_dictSet (r : List (String × Value)) (k : String) (v : Value)
    (hr : noNullEntries r = true) (hv1 : isNull v = false)
    (hv2 : noNullValues v = true) : noNullEntries (dictSet r k v) = true := by
  induction r with
  | nil => simp [dictSet, noNullEntries, hv1, hv2]
  | cons kv rest ih =>
    obtain ⟨k', v'⟩ := kv
    simp only [noNullEntries, Bool.and_eq_true] at hr
    by_cases hk : k' = k
    · simp [dictSet, hk, noNullEntries, hv1, hv2, hr.2]
    · simp only [dictSet, if_neg hk]
      simp [noNullEntries, hr.1.1, hr.1.2, ih hr.2]

lemma noNullEntries_foldl (l : List (String × Value)) :
    ∀ acc : List (String × Value),
      (∀ kv ∈ l, isNull kv.2 = false ∧ noNullValues kv.2 = true) →
      noNullEntries acc = true →
      noNullEntries (l.foldl (fun r kv => dictSet r kv.1 kv.2) acc) = true := by
  induction l with
  | nil => intro acc _ hacc; simpa using hacc
  | cons kv rest ih =>
    intro acc hl hacc
    simp only [List.foldl_cons]
    have hkv := hl kv (List.mem_cons_self _ _)
    exact ih _ (fun kv' h => hl kv' (List.mem_cons_of_mem _ h))
      (noNullEntries_dictSet acc kv.1 kv.2 hacc hkv.1 hkv.2)

lemma dds_noNull (cfg : Config) (es res : List (String × Value))
    (hstrip : cfg.strip_nulls = true)
    (hpt : ∀ kv ∈ es, ∀ dv, dump_impl kv.2 cfg = some dv → noNullValues dv = true)
    (h : default_dict_serializer es cfg = some res) :
    noNullEntries res = true := by
  rw [dds_eq] at h
  rcases Option.map_eq_some'.mp h with ⟨l, hl, rfl⟩
  rw [buildDict]
  apply noNullEntries_foldl
  · intro kv hkv
    rcases stripTransform_mem cfg l kv hkv with ⟨kdv, hkdv, rfl, hsur⟩
    rcases dumpEntries_mem cfg es l hl kdv hkdv with ⟨kv', hkv', _, hdump⟩
    constructor
    · rw [hstrip] at hsur; simpa using hsur
    · exact hpt kv' hkv' kdv.2 hdump
  · simp [noNullEntries]

lemma noNullList_of_forall2 (cfg : Config) :
    ∀ (xs rs : List Value),
      List.Forall₂ (fun e de => dump_impl e cfg = some de) xs rs →
      (∀ e ∈ xs, ∀ de, dump_impl e cfg = some de → noNullValues de = true) →
      noNullList rs = true := by
  intro xs rs h
  induction h with
  | nil => intro _; simp [noNullList]
  | cons h1 _ ihf =>
    intro hpt
    simp only [noNullList, Bool.and_eq_true]
    exact ⟨hpt _ (List.mem_cons_self _ _) _ h1,
      ihf (fun e he de hde => hpt e (List.mem_cons_of_mem _ he) de hde)⟩

lemma C2_main : ∀ (n : Nat) (v : Value) (cfg : Config) (r : Value),
    sizeOf v ≤ n → cfg.strip_nulls = true →
    (cfg.use_enum_name = true ∨ enumsNullFree v = true) →
    dump_impl v cfg = some r → noNullValues r = true := by
  intro n
  induction n with
  | zero =>
    intro v cfg r hsz
    exfalso
    cases v <;> simp at hsz
  | succ n ih =>
    intro v cfg r hsz hstrip henum hdump
    cases v with
    | null =>
      simp only [dump_impl, default_primitive_serializer,
        Option.some.injEq] at hdump
      rw [← hdump]; simp [noNullValues]
    | bool b =>
      simp only [dump_impl, default_primitive_serializer,
        Option.some.injEq] at hdump
      rw [← hdump]; simp [noNullValues]
    | num m =>
      simp only [dump_impl, default_primitive_serializer,
        Option.some.injEq] at hdump
      rw [← hdump]; simp [noNullValues]
    | str s =>
      simp only [dump_impl, default_primitive_serializer,
        Option.some.injEq] at hdump
      rw [← hdump]; simp [noNullValues]
    | dt d =>
      simp only [dump_impl] at hdump
      rcases Option.map_eq_some'.mp hdump with ⟨s, _, rfl⟩
      simp [noNullValues]
    | enum nm pv =>
      simp only [dump_impl, default_enum_serializer,
        Option.some.injEq] at hdump
      cases hu : cfg.use_enum_name with
      | true =>
        rw [hu] at hdump
        simp only [if_pos rfl] at hdump
        rw [← hdump]; simp [noNullValues]
      | false =>
        rw [hu] at hdump
        simp only [Bool.false_eq_true, if_false] at hdump
        rcases henum with hue | henf
        · rw [hu] at hue; cases hue
        · have hnn : noNullValues pv = true := by
            simpa [enumsNullFree] using henf
          rw [← hdump]; exact hnn
    | list xs =>
      simp only [dump_impl] at hdump
      rcases Option.map_eq_some'.mp hdump with ⟨rs, hrs, rfl⟩
      simp only [noNullValues]
      have hszxs : sizeOf xs ≤ n := by simp at hsz; omega
      apply noNullList_of_forall2 cfg xs rs (iterable_forall2 cfg xs rs hrs)
      intro e he de hde
      have hsze : sizeOf e ≤ n := by
        have := List.sizeOf_lt_of_mem he; omega
      apply ih e cfg de hsze hstrip ?_ hde
      rcases henum with hue | hentry
      · exact Or.inl hue
      · exact Or.inr (enumsNullFreeList_mem (by simpa [enumsNullFree] using hentry) e he)
    | dict es =>
      simp only [dump_impl] at hdump
      rcases Option.map_eq_some'.mp hdump with ⟨res, hres, rfl⟩
      simp only [noNullValues]
      have hszes : sizeOf es ≤ n := by simp at hsz; omega
      apply dds_noNull cfg es res hstrip ?_ hres
      intro kv hkv dv hdv
      obtain ⟨k, w⟩ := kv
      have hszw : sizeOf w ≤ n := by
        have h1 := List.sizeOf_lt_of_mem hkv
        simp at h1; omega
      apply ih w cfg dv hszw hstrip ?_ hdv
      rcases henum with hue | hentry
      · exact Or.inl hue
      · exact Or.inr (enumsNullFreeEntries_mem
          (by simpa [enumsNullFree] using hentry) (k, w) hkv)
    | obj fs =>
      simp only [dump_impl] at hdump
      rw [dos_eq] at hdump
      rcases Option.map_eq_some'.mp hdump with ⟨res, hres, rfl⟩
      simp only [noNullValues]
      have hszfs : sizeOf fs ≤ n := by simp at hsz; omega
      apply dds_noNull cfg fs res hstrip ?_ hres
      intro kv hkv dv hdv
      obtain ⟨k, w⟩ := kv
      have hszw : sizeOf w ≤ n := by
        have h1 := List.sizeOf_lt_of_mem hkv
        simp at h1; omega
      apply ih w cfg dv hszw hstrip ?_ hdv
      rcases henum with hue | hentry
      · exact Or.inl hue
      · exact Or.inr (enumsNullFreeEntries_mem
          (by simpa [enumsNullFree] using hentry) (k, w) hkv)

lemma endsWithStr_iff (s t : String) :
    endsWithStr s t = true ↔ t.data <:+ s.data := by
  rw [endsWithStr, List.isSuffixOf, List.isPrefixOf_iff_prefix,
    List.reverse_prefix]

lemma endsWithStr_append (p t : String) : endsWithStr (p ++ t) t = true := by
  rw [endsWithStr_iff, String.data_append]
  exact List.suffix_append p.data t.data

lemma splitOnUTC_head_cut (l : List Char) :
    splitOnUTC ('U' :: 'T' :: 'C' :: l) = [] :: splitOnUTC l := by
  simp [splitOnUTC]

lemma splitOnUTC_no_U (l : List Char) (h : ∀ c ∈ l, c ≠ 'U') :
    splitOnUTC l = [l] := by
  induction l with
  | nil => rfl
  | cons c rest ih =>
    have hc : c ≠ 'U' := h c (List.mem_cons_self _ _)
    have hrest := ih (fun c' hc' => h c' (List.mem_cons_of_mem _ hc'))
    rw [splitOnUTC.eq_2 c rest (fun _ h1 _ => hc h1), hrest]

lemma tzOffset_z (tz : Option String) (h : tz = none ∨ tz = some "UTC") :
    tzOffset tz = some "Z" := by
  rcases h with h | h <;> simp [tzOffset, h]

lemma ser_z_case (d : DateTime) (h : d.tzinfo = none ∨ d.tzinfo = some "UTC") :
    default_datetime_serializer d =
      some ((if d.microsecond ≠ 0 then
        formatBase d ++ "." ++ padNum 6 d.microsecond else formatBase d) ++ "Z") := by
  simp [default_datetime_serializer, tzOffset_z d.tzinfo h]

lemma offsetWF_no_U (off : String) (hwf : offsetWF off = true) :
    ∀ c ∈ off.data, c ≠ 'U' := by
  intro c hc hU
  have hall : off.data.all offsetGoodChar = true := by
    simp only [offsetWF, Bool.and_eq_true] at hwf
    exact hwf.2
  rw [List.all_eq_true] at hall
  have hgood := hall c hc
  subst hU
  exact absurd hgood (by decide)

lemma offsetWF_ne_utc (off : String) (hwf : offsetWF off = true) :
    ¬("UTC" ++ off = "UTC") := by
  intro h
  have hd := congrArg String.data h
  rw [String.data_append] at hd
  have hnil : off.data = [] := by
    have h2 : ("UTC" : String).data ++ off.data = ("UTC" : String).data ++ [] := by
      rw [List.append_nil]
      exact hd
    exact List.append_cancel_left h2
  simp only [offsetWF, hnil] at hwf
  simp at hwf

lemma tzOffset_split (off : String) (hwf : offsetWF off = true) :
    tzOffset (some ("UTC" ++ off)) = some off := by
  have hne := offsetWF_ne_utc off hwf
  have hdata : ("UTC" ++ off).data = 'U' :: 'T' :: 'C' :: off.data := by
    rw [String.data_append]
    rfl
  simp only [tzOffset, if_neg hne, hdata, splitOnUTC_head_cut,
    splitOnUTC_no_U off.data (offsetWF_no_U off hwf)]
  rfl

lemma ser_offset_case (d : DateTime) (off : String)
    (htz : d.tzinfo = some ("UTC" ++ off)) (hwf : offsetWF off = true) :
    default_datetime_serializer d =
      some ((if d.microsecond ≠ 0 then
        formatBase d ++ "." ++ padNum 6 d.microsecond else formatBase d) ++ off) := by
  simp [default_datetime_serializer, htz, tzOffset_split off hwf]

lemma offsetGoodChar_ne_Z (c : Char) (h : offsetGoodChar c = true) : c ≠ 'Z' := by
  intro hc
  subst hc
  exact absurd h (by decide)

lemma ser_shape (d : DateTime) (s : String)
    (h : default_datetime_serializer d = some s) :
    ∃ off : String, tzOffset d.tzinfo = some off ∧
      s = (if d.microsecond ≠ 0 then
        formatBase d ++ "." ++ padNum 6 d.microsecond else formatBase d) ++ off := by
  cases hoff : tzOffset d.tzinfo with
  | none => simp [default_datetime_serializer, hoff] at h
  | some offset =>
    simp only [default_datetime_serializer, hoff, Option.some.injEq] at h
    exact ⟨offset, rfl, h.symm⟩

lemma forall2_get? {α β : Type} {R : α → β → Prop} :
    ∀ {xs : List α} {rs : List β}, List.Forall₂ R xs rs →
      ∀ i a, xs.get? i = some a → ∃ b, rs.get? i = some b ∧ R a b := by
  intro xs rs h
  induction h with
  | nil => intro i a ha; simp at ha
  | cons h1 _ ih =>
    intro i a ha
    cases i with
    | zero =>
      simp only [List.get?] at ha ⊢
      cases ha
      exact ⟨_, rfl, h1⟩
    | succ n =>
      simp only [List.get?] at ha ⊢
      exact ih n a ha

/-- C1: for every mapping serialized by the default mapping serializer with a
key transformer set, the result is built by first serializing every entry's
value in insertion order with the unchanged configuration, then dropping the
entries whose serialized value is null when `strip_nulls` is set, and
finally applying the transformer exactly once to the original key of each
surviving entry — a dropped entry's key is never transformed, and each
surviving key is transformed only after its value has been serialized. -/
theorem C1_key_transformed_once_on_survivors
    (obj : List (String × Value)) (cfg : Config) (f : String → String)
    (hkt : cfg.key_transformer = some f) :
    default_dict_serializer obj cfg =
      (dumpEntries obj cfg).map (fun l =>
        buildDict ((l.filter (fun kdv => !(cfg.strip_nulls && isNull kdv.2))).map
          (fun kdv => (f kdv.1, kdv.2)))) := by
  rw [dds_eq]
  cases h : dumpEntries obj cfg with
  | none => rfl
  | some l =>
    simp only [Option.map_some']
    rw [stripTransform_kt cfg f hkt]

/-- Witness for C1 at a concrete mapping with `strip_nulls` set and a
constant key transformer. -/
theorem C1_witness :
    (⟨true, some constKeyX, true, []⟩ : Config).key_transformer = some constKeyX ∧
    default_dict_serializer [("a", Value.null), ("bc", Value.num 2)]
        ⟨true, some constKeyX, true, []⟩ =
      (dumpEntries [("a", Value.null), ("bc", Value.num 2)]
          ⟨true, some constKeyX, true, []⟩).map (fun l =>
        buildDict ((l.filter (fun kdv =>
            !((⟨true, some constKeyX, true, []⟩ : Config).strip_nulls &&
              isNull kdv.2))).map
          (fun kdv => (constKeyX kdv.1, kdv.2)))) ∧
    default_dict_serializer [("a", Value.null), ("bc", Value.num 2)]
        ⟨true, some constKeyX, true, []⟩ = some [("x", Value.num 2)] :=
  ⟨rfl, C1_key_transformed_once_on_survivors _ _ _ rfl,
    by simp [default_dict_serializer, dict_loop, dump_impl,
      default_primitive_serializer, isNull, applyKT, constKeyX, dictSet]⟩

/-- C2 (amended): serializing any value with `strip_nulls` set yields a
result in which no mapping entry at any nesting level has a null value,
provided that either `use_enum_name` is set (the default) or no enumeration
member inside the value carries an underlying value containing a null
mapping entry (such underlying values are emitted raw, bypassing
null-stripping); in particular the scenario
dispatch on a mapping of a to 1 and b to null with `strip_nulls` yields the
mapping of a to 1 alone. -/
theorem C2_strip_nulls_amended (v : Value) (cfg : Config) (r : Value)
    (hstrip : cfg.strip_nulls = true)
    (henum : cfg.use_enum_name = true ∨ enumsNullFree v = true)
    (hdump : dump_impl v cfg = some r) :
    noNullValues r = true :=
  C2_main (sizeOf v) v cfg r (Nat.le_refl _) hstrip henum hdump

/-- Counterexample to C2 as stated: with `strip_nulls` set and
`use_enum_name` unset, a mapping whose entry value is an enumeration member
carrying a mapping with a null entry serializes to a nested result in which
a key still maps to null, because the member's underlying value is returned
raw by the enum serializer and never null-stripped. -/
theorem C2_strip_nulls_counterexample :
    dump_impl (.dict [("b", .enum "M" (.dict [("a", .null)]))])
        ⟨true, none, false, []⟩ =
      some (.dict [("b", .dict [("a", .null)])]) ∧
    noNullValues (.dict [("b", .dict [("a", .null)])]) = false := by
  constructor
  · simp [dump_impl, default_dict_serializer, dict_loop, isNull, applyKT,
      dictSet, default_enum_serializer]
  · simp [noNullValues, noNullEntries, isNull]

/-- Witness for C2 on the spec's scenario input. -/
theorem C2_strip_nulls_witness :
    (⟨true, none, true, []⟩ : Config).strip_nulls = true ∧
    ((⟨true, none, true, []⟩ : Config).use_enum_name = true ∨
      enumsNullFree (.dict [("a", .num 1), ("b", .null)]) = true) ∧
    dump_impl (.dict [("a", .num 1), ("b", .null)]) ⟨true, none, true, []⟩ =
      some (.dict [("a", .num 1)]) ∧
    noNullValues (.dict [("a", .num 1)]) = true := by
  constructor
  · rfl
  constructor
  · exact Or.inl rfl
  constructor
  · simp [dump_impl, default_dict_serializer, dict_loop, isNull, applyKT,
      dictSet, default_primitive_serializer]
  · exact C2_strip_nulls_amended (.dict [("a", .num 1), ("b", .null)])
      ⟨true, none, true, []⟩ (.dict [("a", .num 1)]) rfl (Or.inl rfl)
      (by simp [dump_impl, default_dict_serializer, dict_loop, isNull,
        applyKT, dictSet, default_primitive_serializer])

/-- C3: dispatching a sequence yields a sequence of equal length whose
element at every index is the dispatch of the input element at that index,
in order, under any configuration; in particular null elements are never
removed (the length is preserved and a null input element stays a null
output element even when `strip_nulls` is set). -/
theorem C3_sequence_elementwise (xs : List Value) (cfg : Config) (r : Value)
    (h : dump_impl (.list xs) cfg = some r) :
    ∃ rs, r = .list rs ∧ rs.length = xs.length ∧
      List.Forall₂ (fun e de => dump_impl e cfg = some de) xs rs ∧
      (∀ i, xs.get? i = some Value.null → rs.get? i = some Value.null) := by
  simp only [dump_impl] at h
  rcases Option.map_eq_some'.mp h with ⟨rs, hrs, rfl⟩
  have hf2 := iterable_forall2 cfg xs rs hrs
  refine ⟨rs, rfl, (List.Forall₂.length_eq hf2).symm, hf2, ?_⟩
  intro i hi
  rcases forall2_get? hf2 i Value.null hi with ⟨b, hb, hR⟩
  simp only [dump_impl, default_primitive_serializer, Option.some.injEq] at hR
  rw [← hR] at hb
  exact hb

/-- Witness for C3 on a sequence containing a null, with `strip_nulls`
set. -/
theorem C3_witness :
    dump_impl (.list [.num 1, .null]) ⟨true, none, true, []⟩ =
      some (.list [.num 1, .null]) ∧
    (∃ rs, Value.list [Value.num 1, Value.null] = .list rs ∧
      rs.length = ([Value.num 1, Value.null] : List Value).length ∧
      List.Forall₂ (fun e de => dump_impl e ⟨true, none, true, []⟩ = some de)
        [Value.num 1, Value.null] rs ∧
      (∀ i, ([Value.num 1, Value.null] : List Value).get? i = some Value.null →
        rs.get? i = some Value.null)) :=
  ⟨by simp [dump_impl, default_iterable_serializer, default_primitive_serializer],
    C3_sequence_elementwise _ _ _
      (by simp [dump_impl, default_iterable_serializer,
        default_primitive_serializer])⟩

/-- C4 (code bug): the enum serializer returns the member's symbolic name as
a string by default, but with `use_enum_name` unset it returns the raw
underlying value without converting it to a string — dispatching a member
with underlying value 1 yields the number 1, not a string, contradicting
the function's declared return type and docstring. -/
theorem C4_enum_value_returned_raw :
    dump_impl (.enum "RED" (.num 1)) ⟨false, none, false, []⟩ =
      some (.num 1) ∧
    isStr (.num 1) = false ∧
    dump_impl (.enum "RED" (.num 1)) ⟨false, none, true, []⟩ =
      some (.str "RED") ∧
    isStr (.str "RED") = true := by
  refine ⟨?_, rfl, ?_, rfl⟩ <;> simp [dump_impl, default_enum_serializer]

/-- Counterexample to C5 as stated: a naive datetime (no timezone at all)
also serializes with the Z suffix, so the output ends with Z without the
timezone being UTC. -/
theorem C5_z_suffix_counterexample :
    default_datetime_serializer ⟨2000, 1, 2, 3, 4, 5, 0, none⟩ =
      some "2000-01-02T03:04:05Z" ∧
    endsWithStr "2000-01-02T03:04:05Z" "Z" = true ∧
    tzIsUTC ⟨2000, 1, 2, 3, 4, 5, 0, none⟩ = false := by
  refine ⟨by decide, by decide, by decide⟩

/-- C5 (amended): for a datetime whose timezone is absent, UTC, or named
UTC followed by a well-formed signed offset string, the serialized output
ends with Z if and only if the timezone is UTC or absent, and otherwise
ends with the signed offset string taken from the timezone name. -/
theorem C5_z_suffix_amended (d : DateTime) (s : String)
    (hform : d.tzinfo = none ∨ d.tzinfo = some "UTC" ∨
      ∃ off, d.tzinfo = some ("UTC" ++ off) ∧ offsetWF off = true)
    (h : default_datetime_serializer d = some s) :
    (endsWithStr s "Z" = true ↔ (d.tzinfo = none ∨ d.tzinfo = some "UTC")) ∧
    (∀ off, d.tzinfo = some ("UTC" ++ off) → offsetWF off = true →
      endsWithStr s off = true) := by
  rcases hform with h0 | h0 | ⟨off, h0, hwf⟩
  · rw [ser_z_case d (Or.inl h0)] at h
    have hs : s = (if d.microsecond ≠ 0 then
        formatBase d ++ "." ++ padNum 6 d.microsecond else formatBase d) ++ "Z" :=
      (Option.some.inj h).symm
    constructor
    · refine iff_of_true ?_ (Or.inl h0)
      rw [hs]
      exact endsWithStr_append _ _
    · intro off' hoff' _
      rw [h0] at hoff'
      exact Option.noConfusion hoff'
  · rw [ser_z_case d (Or.inr h0)] at h
    have hs : s = (if d.microsecond ≠ 0 then
        formatBase d ++ "." ++ padNum 6 d.microsecond else formatBase d) ++ "Z" :=
      (Option.some.inj h).symm
    constructor
    · refine iff_of_true ?_ (Or.inr h0)
      rw [hs]
      exact endsWithStr_append _ _
    · intro off' hoff' hwf'
      rw [h0] at hoff'
      have heq : "UTC" = "UTC" ++ off' := Option.some.inj hoff'
      exact absurd heq.symm (offsetWF_ne_utc off' hwf')
  · rw [ser_offset_case d off h0 hwf] at h
    have hs : s = (if d.microsecond ≠ 0 then
        formatBase d ++ "." ++ padNum 6 d.microsecond else formatBase d) ++ off :=
      (Option.some.inj h).symm
    subst hs
    constructor
    · apply iff_of_false
      · intro hZ
        rw [endsWithStr_iff] at hZ
        obtain ⟨t, ht⟩ := hZ
        have hZd : ("Z" : String).data = ['Z'] := rfl
        rw [hZd, String.data_append] at ht
        have hne : off.data ≠ [] := by
          intro hnil
          simp [offsetWF, hnil] at hwf
        obtain ⟨c, cs, hrev⟩ : ∃ c cs, off.data.reverse = c :: cs := by
          cases hr : off.data.reverse with
          | nil =>
            exfalso
            apply hne
            have h2 := congrArg List.reverse hr
            simpa using h2
          | cons c cs => exact ⟨c, cs, rfl⟩
        have hrev2 := congrArg List.reverse ht
        simp only [List.reverse_append, List.reverse_singleton,
          List.singleton_append, List.cons_append, hrev] at hrev2
        injection hrev2 with h1 _
        have hmem : c ∈ off.data := by
          rw [← List.mem_reverse, hrev]
          exact List.mem_cons_self _ _
        have hgood : offsetGoodChar c = true := by
          have hall : off.data.all offsetGoodChar = true := by
            simp only [offsetWF, Bool.and_eq_true] at hwf
            exact hwf.2
          rw [List.all_eq_true] at hall
          exact hall c hmem
        exact offsetGoodChar_ne_Z c hgood h1.symm
      · rintro (hn | hu)
        · rw [h0] at hn
          exact Option.noConfusion hn
        · rw [h0] at hu
          exact offsetWF_ne_utc off hwf (Option.some.inj hu)
    · intro off' hoff' _
      rw [h0] at hoff'
      have heq : "UTC" ++ off = "UTC" ++ off' := Option.some.inj hoff'
      have hdq : off.data = off'.data := by
        have h2 := congrArg String.data heq
        rw [String.data_append, String.data_append] at h2
        exact List.append_cancel_left h2
      rw [endsWithStr_iff, String.data_append, ← hdq]
      exact List.suffix_append _ _

/-- Witness for C5 at a fixed-offset timezone named UTC+02:30 and at the
amended theorem's hypotheses. -/
theorem C5_z_suffix_witness :
    ((⟨2021, 5, 6, 7, 8, 9, 0, some "UTC+02:30"⟩ : DateTime).tzinfo = none ∨
      (⟨2021, 5, 6, 7, 8, 9, 0, some "UTC+02:30"⟩ : DateTime).tzinfo = some "UTC" ∨
      ∃ off, (⟨2021, 5, 6, 7, 8, 9, 0, some "UTC+02:30"⟩ : DateTime).tzinfo =
        some ("UTC" ++ off) ∧ offsetWF off = true) ∧
    default_datetime_serializer ⟨2021, 5, 6, 7, 8, 9, 0, some "UTC+02:30"⟩ =
      some "2021-05-06T07:08:09+02:30" ∧
    ((endsWithStr "2021-05-06T07:08:09+02:30" "Z" = true ↔
      ((⟨2021, 5, 6, 7, 8, 9, 0, some "UTC+02:30"⟩ : DateTime).tzinfo = none ∨
        (⟨2021, 5, 6, 7, 8, 9, 0, some "UTC+02:30"⟩ : DateTime).tzinfo =
          some "UTC")) ∧
    (∀ off, (⟨2021, 5, 6, 7, 8, 9, 0, some "UTC+02:30"⟩ : DateTime).tzinfo =
        some ("UTC" ++ off) → offsetWF off = true →
      endsWithStr "2021-05-06T07:08:09+02:30" off = true)) := by
  refine ⟨Or.inr (Or.inr ⟨"+02:30", by decide, by decide⟩), by decide, ?_⟩
  exact C5_z_suffix_amended ⟨2021, 5, 6, 7, 8, 9, 0, some "UTC+02:30"⟩
    "2021-05-06T07:08:09+02:30"
    (Or.inr (Or.inr ⟨"+02:30", by decide, by decide⟩)) (by decide)

/-- C6: whenever the datetime serializer succeeds, its output is exactly the
base pattern render, followed by the fractional-seconds part precisely when
the microsecond component is non-zero, followed by the offset suffix
computed by `tzOffset` — in particular, with a zero sub-second component
the output is the base render directly followed by that offset, with no
fractional part between them. -/
theorem C6_fractional_iff_microsecond (d : DateTime) (s : String)
    (h : default_datetime_serializer d = some s) :
    ∃ off, tzOffset d.tzinfo = some off ∧
      s = formatBase d ++
        (if d.microsecond = 0 then "" else "." ++ padNum 6 d.microsecond) ++ off := by
  rcases ser_shape d s h with ⟨off, hoff, hs⟩
  refine ⟨off, hoff, ?_⟩
  by_cases hm : d.microsecond = 0
  · simp only [hm, ne_eq, not_true_eq_false, if_false, if_pos rfl] at hs ⊢
    simpa using hs
  · simp only [hm, ne_eq, not_false_eq_true, if_pos, if_neg hm,
      String.append_assoc] at hs ⊢
    exact hs

/-- Witness for C6 at a datetime with a non-zero microsecond component. -/
theorem C6_fractional_witness :
    default_datetime_serializer ⟨2000, 1, 2, 3, 4, 5, 7, none⟩ =
      some "2000-01-02T03:04:05.000007Z" ∧
    (∃ off, tzOffset (⟨2000, 1, 2, 3, 4, 5, 7, none⟩ : DateTime).tzinfo =
        some off ∧
      "2000-01-02T03:04:05.000007Z" =
        formatBase ⟨2000, 1, 2, 3, 4, 5, 7, none⟩ ++
          (if (⟨2000, 1, 2, 3, 4, 5, 7, none⟩ : DateTime).microsecond = 0 then ""
            else "." ++
              padNum 6 (⟨2000, 1, 2, 3, 4, 5, 7, none⟩ : DateTime).microsecond) ++
          off) :=
  ⟨by decide, C6_fractional_iff_microsecond ⟨2000, 1, 2, 3, 4, 5, 7, none⟩
    "2000-01-02T03:04:05.000007Z" (by decide)⟩

/-- C7: the three recursing default serializers (sequence, mapping, generic
object) pass the whole configuration — `strip_nulls`, `key_transformer`,
`use_enum_name` and every extra entry — unchanged to every recursive
dispatch call they make: elements are dispatched with the same `cfg`, every
mapping entry value is dispatched with the same `cfg`, and the object
serializer delegates to the mapping serializer with the same `cfg`.  In
this embedding the configuration is a plain value, so no serializer can
mutate it. -/
theorem C7_config_forwarding (cfg : Config) (xs : List Value)
    (obj fields : List (String × Value)) :
    default_iterable_serializer xs cfg = xs.mapM (fun e => dump_impl e cfg) ∧
    default_dict_serializer obj cfg =
      (dumpEntries obj cfg).map (fun l => buildDict (stripTransform cfg l)) ∧
    default_object_serializer fields cfg = default_dict_serializer fields cfg :=
  ⟨iterable_eq_mapM xs cfg, dds_eq obj cfg, dos_eq fields cfg⟩

/-- C8: dispatching an object with no registered serializer produces exactly
the result of dispatching the mapping of its field names to field values —
equivalently, the result of the default mapping serializer on its fields —
under the same configuration. -/
theorem C8_object_fallback_refinement (fields : List (String × Value))
    (cfg : Config) :
    dump_impl (.obj fields) cfg = serializeFieldsAsMapping fields cfg ∧
    dump_impl (.obj fields) cfg =
      (default_dict_serializer fields cfg).map Value.dict := by
  constructor
  · simp [dump_impl, serializeFieldsAsMapping, dos_eq]
  · simp [dump_impl, dos_eq]

/-- C9: dispatching a primitive scalar (null, boolean, number or string)
returns it unchanged under every configuration. -/
theorem C9_primitive_identity (cfg : Config) (b : Bool) (n : Int) (s : String) :
    dump_impl .null cfg = some .null ∧
    dump_impl (.bool b) cfg = some (.bool b) ∧
    dump_impl (.num n) cfg = some (.num n) ∧
    dump_impl (.str s) cfg = some (.str s) := by
  refine ⟨?_, ?_, ?_, ?_⟩ <;> simp [dump_impl, default_primitive_serializer]

/-- C10: with a key transformer set, the mapping serializer's result maps
each output key to the serialized value of the last surviving input entry
(in insertion order) whose transformed key equals it — later writes
overwrite earlier ones — and the result has at most as many entries as
there are surviving input entries. -/
theorem C10_collision_last_write_wins (obj : List (String × Value))
    (cfg : Config) (f : String → String) (r : List (String × Value))
    (hkt : cfg.key_transformer = some f)
    (h : default_dict_serializer obj cfg = some r) :
    ∃ l, dumpEntries obj cfg = some l ∧
      (∀ t, dictGet r t =
        (((l.filter (fun kdv => !(cfg.strip_nulls && isNull kdv.2))).map
            (fun kdv => (f kdv.1, kdv.2))).reverse.find?
          (fun kv => kv.1 == t)).map Prod.snd) ∧
      r.length ≤ ((l.filter (fun kdv => !(cfg.strip_nulls && isNull kdv.2))).map
        (fun kdv => (f kdv.1, kdv.2))).length := by
  rw [dds_eq] at h
  rcases Option.map_eq_some'.mp h with ⟨l, hl, rfl⟩
  refine ⟨l, hl, ?_, ?_⟩
  · intro t
    rw [← stripTransform_kt cfg f hkt, buildDict, foldl_dictSet_lookup]
    cases hf : (stripTransform cfg l).reverse.find? (fun kv => kv.1 == t) with
    | none => simp [dictGet]
    | some kv => simp
  · rw [← stripTransform_kt cfg f hkt, buildDict]
    have h2 := foldl_dictSet_length (stripTransform cfg l) []
    simpa using h2

/-- Witness for C10: two distinct surviving keys sent to the same output key
by a constant transformer; the result holds only the later entry's value and
is strictly smaller than the surviving entry count. -/
theorem C10_collision_witness :
    (⟨false, some constKeyX, true, []⟩ : Config).key_transformer =
      some constKeyX ∧
    default_dict_serializer [("aa", Value.num 1), ("bb", Value.num 2)]
      ⟨false, some constKeyX, true, []⟩ = some [("x", Value.num 2)] ∧
    (∃ l, dumpEntries [("aa", Value.num 1), ("bb", Value.num 2)]
        ⟨false, some constKeyX, true, []⟩ = some l ∧
      (∀ t, dictGet [("x", Value.num 2)] t =
        (((l.filter (fun kdv =>
            !((⟨false, some constKeyX, true, []⟩ : Config).strip_nulls &&
              isNull kdv.2))).map
            (fun kdv => (constKeyX kdv.1, kdv.2))).reverse.find?
          (fun kv => kv.1 == t)).map Prod.snd) ∧
      ([("x", Value.num 2)] : List (String × Value)).length ≤
        ((l.filter (fun kdv =>
            !((⟨false, some constKeyX, true, []⟩ : Config).strip_nulls &&
              isNull kdv.2))).map
          (fun kdv => (constKeyX kdv.1, kdv.2))).length) ∧
    ([("x", Value.num 2)] : List (String × Value)).length < 2 := by
  constructor
  · rfl
  constructor
  · simp [default_dict_serializer, dict_loop, dump_impl,
      default_primitive_serializer, isNull, applyKT, constKeyX, dictSet]
  constructor
  · exact C10_collision_last_write_wins
      [("aa", Value.num 1), ("bb", Value.num 2)]
      ⟨false, some constKeyX, true, []⟩ constKeyX [("x", Value.num 2)] rfl
      (by simp [default_dict_serializer, dict_loop, dump_impl,
        default_primitive_serializer, isNull, applyKT, constKeyX, dictSet])
  · decide

end Jsons
